import Mathlib

/-!
Verification development for the mysymptoms safe-foods analyzer
(src/mysymptoms.py).  The Python source is shallowly embedded: instants
are modelled as integers (the unit is irrelevant; only differences and
comparisons with the onset window occur), Python dicts (which preserve
insertion order) are association lists, Python sets of registry-interned
objects are duplicate-free lists in insertion order, and floats are
rationals with an explicit round-half-even rounding at two decimals.
-/

namespace MySymptoms

/-! ## String helpers: clean_data, ignore_item -/

/-- Python str.strip(" "): remove leading and trailing space characters
(only the space character, not tabs or newlines). -/
def stripSpaces (l : List Char) : List Char :=
  ((l.dropWhile (· = ' ')).reverse.dropWhile (· = ' ')).reverse

/-- clean_data from src/mysymptoms.py:
data.strip(" ").replace(quote-char, empty) — strip surrounding spaces,
then delete every double-quote character. -/
def clean_data (s : String) : String :=
  ⟨(stripSpaces s.toList).filter (· ≠ '"')⟩

/-- ignore_item from src/mysymptoms.py: item.startswith("["), stated on
the character list so it evaluates by kernel reduction. -/
def ignore_item (s : String) : Bool :=
  "[".toList.isPrefixOf s.toList

/-! ## Python str.replace(pat, "") — delete every non-overlapping
occurrence of pat, scanning left to right. -/

def removeAllAux (pat : List Char) : Nat → List Char → List Char
  | _, [] => []
  | 0, l => l
  | fuel + 1, c :: rest =>
    if pat ≠ [] ∧ pat.isPrefixOf (c :: rest) then
      removeAllAux pat fuel ((c :: rest).drop pat.length)
    else
      c :: removeAllAux pat fuel rest

/-- Python s.replace(pat, "") for a string pattern.  Every scan step
consumes at least one character, so fuelling the structural recursion
with the string length is exact. -/
def removeAll (pat : String) (s : String) : String :=
  ⟨removeAllAux pat.toList s.toList.length s.toList⟩

/-! ## Python int(str) — the integer constructor on strings: strips
surrounding whitespace, then an optional sign, then a nonempty digit
string in which single underscores may separate digits. -/

def isPySpace (c : Char) : Bool :=
  c = ' ' ∨ c = '\t' ∨ c = '\n' ∨ c = '\r' ∨ c = Char.ofNat 11 ∨ c = Char.ofNat 12

def digitVal (c : Char) : Nat := c.toNat - 48

def parseDigitsAux (acc : Nat) : List Char → Option Nat
  | [] => some acc
  | '_' :: c :: rest =>
    if c.isDigit then parseDigitsAux (acc * 10 + digitVal c) rest else none
  | ['_'] => none
  | c :: rest =>
    if c.isDigit then parseDigitsAux (acc * 10 + digitVal c) rest else none

def parseDigitsStart : List Char → Option Nat
  | [] => none
  | c :: rest => if c.isDigit then parseDigitsAux (digitVal c) rest else none

/-- Python int() applied to a string, as an Option. -/
def parsePyInt (s : String) : Option Int :=
  let l := (s.toList.dropWhile isPySpace).reverse.dropWhile isPySpace |>.reverse
  match l with
  | '+' :: rest => (parseDigitsStart rest).map Int.ofNat
  | '-' :: rest => (parseDigitsStart rest).map (fun n => -(n : Int))
  | rest => (parseDigitsStart rest).map Int.ofNat

/-! ## Timestamp normalizer: datetime.strptime with the fixed format
month/day/4-digit-year space hour:minute.

Python compiles each format directive to a regular expression:
month is 1[0-2]|0[1-9]|[1-9], day is 3[01]|[12]digit|0[1-9]|[1-9],
year is exactly four digits, hour is 2[0-3]|[0-1]digit|digit, minute is
[0-5]digit|digit, and a literal whitespace in the format matches one or
more whitespace characters.  Because every directive here is followed by
a delimiter no alternative can match (a slash, a colon, whitespace or
end of input), the backtracking regex is equivalent to the
first-alternative-wins recursive parser below.  datetime construction
then validates the year (at least 1) and the day against the month
length. -/

structure PyDateTime where
  year : Nat
  month : Nat
  day : Nat
  hour : Nat
  minute : Nat
deriving DecidableEq, Repr

def matchMonth : List Char → Option (Nat × List Char)
  | '1' :: c :: rest =>
    if '0' ≤ c ∧ c ≤ '2' then some (10 + digitVal c, rest)
    else some (1, c :: rest)
  | '0' :: c :: rest =>
    if '1' ≤ c ∧ c ≤ '9' then some (digitVal c, rest) else none
  | c1 :: c :: rest =>
    if '2' ≤ c1 ∧ c1 ≤ '9' then some (digitVal c1, c :: rest) else none
  | [c] => if '1' ≤ c ∧ c ≤ '9' then some (digitVal c, []) else none
  | [] => none

def matchDay : List Char → Option (Nat × List Char)
  | '3' :: c :: rest =>
    if c = '0' ∨ c = '1' then some (30 + digitVal c, rest)
    else some (3, c :: rest)
  | c1 :: c :: rest =>
    if (c1 = '1' ∨ c1 = '2') ∧ c.isDigit then
      some (digitVal c1 * 10 + digitVal c, rest)
    else if c1 = '0' then
      (if '1' ≤ c ∧ c ≤ '9' then some (digitVal c, rest) else none)
    else if '1' ≤ c1 ∧ c1 ≤ '9' then some (digitVal c1, c :: rest)
    else none
  | [c] => if '1' ≤ c ∧ c ≤ '9' then some (digitVal c, []) else none
  | [] => none

def matchYear : List Char → Option (Nat × List Char)
  | a :: b :: c :: d :: rest =>
    if a.isDigit ∧ b.isDigit ∧ c.isDigit ∧ d.isDigit then
      some (digitVal a * 1000 + digitVal b * 100 + digitVal c * 10 + digitVal d, rest)
    else none
  | _ => none

def matchHour : List Char → Option (Nat × List Char)
  | '2' :: c :: rest =>
    if '0' ≤ c ∧ c ≤ '3' then some (20 + digitVal c, rest)
    else some (2, c :: rest)
  | c1 :: c :: rest =>
    if (c1 = '0' ∨ c1 = '1') ∧ c.isDigit then
      some (digitVal c1 * 10 + digitVal c, rest)
    else if c1.isDigit then some (digitVal c1, c :: rest)
    else none
  | [c] => if c.isDigit then some (digitVal c, []) else none
  | [] => none

def matchMinute : List Char → Option (Nat × List Char)
  | c1 :: c :: rest =>
    if ('0' ≤ c1 ∧ c1 ≤ '5') ∧ c.isDigit then
      some (digitVal c1 * 10 + digitVal c, rest)
    else if c1.isDigit then some (digitVal c1, c :: rest)
    else none
  | [c] => if c.isDigit then some (digitVal c, []) else none
  | [] => none

def matchLit (ch : Char) : List Char → Option (List Char)
  | c :: rest => if c = ch then some rest else none
  | [] => none

/-- One-or-more whitespace (the compiled form of a literal space in a
strptime format string). -/
def matchWhitespace : List Char → Option (List Char)
  | c :: rest => if isPySpace c then some (rest.dropWhile isPySpace) else none
  | [] => none

def isLeapYear (y : Nat) : Bool :=
  (y % 4 = 0 ∧ y % 100 ≠ 0) ∨ y % 400 = 0

def daysInMonth (y m : Nat) : Nat :=
  if m = 2 then (if isLeapYear y then 29 else 28)
  else if m = 4 ∨ m = 6 ∨ m = 9 ∨ m = 11 then 30
  else 31

/-- datetime.strptime(s, month/day/4-digit-year space 24-hour:minute),
including the range validation performed by the datetime constructor. -/
def strptimeMDYHM (l : List Char) : Option PyDateTime := do
  let (m, l) ← matchMonth l
  let l ← matchLit '/' l
  let (d, l) ← matchDay l
  let l ← matchLit '/' l
  let (y, l) ← matchYear l
  let l ← matchWhitespace l
  let (h, l) ← matchHour l
  let l ← matchLit ':' l
  let (mi, l) ← matchMinute l
  if l = [] ∧ 1 ≤ y ∧ d ≤ daysInMonth y m then
    some ⟨y, m, d, h, mi⟩
  else none

/-- convert_to_date_time from src/mysymptoms.py: concatenate the raw
date and time fields, clean the concatenation, and parse it against the
single fixed format. -/
def convert_to_date_time (date time : String) : Option PyDateTime :=
  strptimeMDYHM (clean_data (date ++ time)).toList

/-! ## Rounding: Python round(x, 2), round-half-to-even. -/

def roundHalfEven (q : ℚ) : ℤ :=
  let f := ⌊q⌋
  let r := q - f
  if r < 1/2 then f
  else if 1/2 < r then f + 1
  else if f % 2 = 0 then f else f + 1

def round2 (q : ℚ) : ℚ :=
  (roundHalfEven (q * 100) : ℚ) / 100

/-! ## Data model.

A Symptom object carries only its name and is interned in a per-run
registry (one object per name), so a symptom reference is modelled by
its name.  A Python set of interned Symptom objects is modelled as a
duplicate-free list in insertion order. -/

structure SymptomOccurence where
  symptom : String
  date : Int
  intensity : Int
deriving DecidableEq, Repr

structure Consumable where
  name : String
  last_consumed : Int
  times_consumed : Nat
  symptom_occurrences : List SymptomOccurence
  associated_symptoms : List String
deriving DecidableEq, Repr

/-- Consumable.update_last_consumed from src/mysymptoms.py. -/
def update_last_consumed (c : Consumable) (date : Int) : Consumable :=
  { c with last_consumed := date, times_consumed := c.times_consumed + 1 }

/-- Consumable.add_symptom_occurence from src/mysymptoms.py:
set-insert the symptom and append the occurrence. -/
def add_symptom_occurence (c : Consumable) (o : SymptomOccurence) : Consumable :=
  { c with
    associated_symptoms :=
      if o.symptom ∈ c.associated_symptoms then c.associated_symptoms
      else c.associated_symptoms ++ [o.symptom]
    symptom_occurrences := c.symptom_occurrences ++ [o] }

/-! Python dicts preserve insertion order: modelled as association
lists, updated in place and extended at the end. -/

def lookupA : List (String × Consumable) → String → Option Consumable
  | [], _ => none
  | (k, v) :: m, n => if k = n then some v else lookupA m n

def updateA : List (String × Consumable) → String → Consumable → List (String × Consumable)
  | [], _, _ => []
  | (k, v) :: m, n, w => if k = n then (k, w) :: m else (k, v) :: updateA m n w

/-- The state threaded through MySymptomsCSV: the name-to-Consumable
dict and the symptom registry (its values carry only names). -/
structure CSVState where
  consumables : List (String × Consumable)
  symptoms : List String
deriving DecidableEq, Repr

/-! ## Consumable Tracker: MySymptomsCSV._update_consumables -/

/-- The body of the item loop in _update_consumables: clean the field,
drop bracketed items, then update or create the named Consumable. -/
def updateConsumableItem (m : List (String × Consumable)) (raw : String) (t : Int) :
    List (String × Consumable) :=
  let item := clean_data raw
  if ignore_item item then m
  else
    match lookupA m item with
    | some c => updateA m item (update_last_consumed c t)
    | none => m ++ [(item, ⟨item, t, 1, [], []⟩)]

/-- _update_consumables from src/mysymptoms.py: iterate the fields after
the categorization column. -/
def updateConsumablesRow (m : List (String × Consumable)) (fields : List String) (t : Int) :
    List (String × Consumable) :=
  fields.foldl (fun acc raw => updateConsumableItem acc raw t) m

/-! ## Correlation Engine: MySymptomsCSV._update_symptoms -/

/-- The pair filter in _update_symptoms: duration annotations are
dropped, and with a nonempty allow-list so are names outside it. -/
def skipName (inc : List String) (name : String) : Bool :=
  "Duration".toList.isPrefixOf name.toList || (!inc.isEmpty && !decide (name ∈ inc))

/-- The inner pair loop of _update_symptoms, run for one qualifying
consumable: fields are scanned two at a time (the loop steps its index
by two, so a skipped name skips its intensity as well); a lone trailing
surviving name indexes past the row (IndexError) and a malformed
intensity fails int() (ValueError).  Threads the symptom registry and
returns the consumable extended with the recorded occurrences. -/
def processPairs (inc : List String) (T : Int) :
    List String → Consumable → List String → Except String (List String × Consumable)
  | reg, c, [] => .ok (reg, c)
  | reg, c, [x] =>
    if skipName inc (clean_data x) then .ok (reg, c) else .error "IndexError"
  | reg, c, x :: y :: rest =>
    let name := clean_data x
    if skipName inc name then processPairs inc T reg c rest
    else
      match parsePyInt (removeAll " Intensity: " y) with
      | none => .error "ValueError"
      | some k =>
        let reg1 := if name ∈ reg then reg else reg ++ [name]
        processPairs inc T reg1 (add_symptom_occurence c ⟨name, T, k⟩) rest

/-- The outer consumable loop of _update_symptoms: every tracked
consumable whose elapsed time T - last_consumed is strictly below the
onset window runs the pair loop; the rest are skipped. -/
def updSymCons (inc : List String) (w T : Int) (fields : List String) :
    List String → List (String × Consumable) →
    Except String (List String × List (String × Consumable))
  | reg, [] => .ok (reg, [])
  | reg, (n, c) :: cs =>
    if T - c.last_consumed < w then
      match processPairs inc T reg c fields with
      | .error e => .error e
      | .ok (reg1, c1) =>
        match updSymCons inc w T fields reg1 cs with
        | .error e => .error e
        | .ok (reg2, cs2) => .ok (reg2, (n, c1) :: cs2)
    else
      match updSymCons inc w T fields reg cs with
      | .error e => .error e
      | .ok (reg2, cs2) => .ok (reg2, (n, c) :: cs2)

/-- _update_symptoms from src/mysymptoms.py, on the whole state. -/
def updateSymptoms (inc : List String) (w : Int) (st : CSVState)
    (fields : List String) (T : Int) : Except String CSVState :=
  match updSymCons inc w T fields st.symptoms st.consumables with
  | .error e => .error e
  | .ok (reg, cs) => .ok ⟨cs, reg⟩

/-! ## Row-level ingestion (import_file, after row classification). -/

inductive Row where
  | consumption (rest : List String) (instant : Int)
  | symptomRow (rest : List String) (instant : Int)
deriving DecidableEq, Repr

def stepRow (inc : List String) (w : Int) (st : CSVState) : Row → Except String CSVState
  | .consumption rest t => .ok ⟨updateConsumablesRow st.consumables rest t, st.symptoms⟩
  | .symptomRow rest t => updateSymptoms inc w st rest t

def ingest (inc : List String) (w : Int) : CSVState → List Row → Except String CSVState
  | st, [] => .ok st
  | st, r :: rs =>
    match stepRow inc w st r with
    | .error e => .error e
    | .ok st1 => ingest inc w st1 rs

/-! ## Scoring Engine -/

def sumIntensity (c : Consumable) : Int :=
  (c.symptom_occurrences.map (fun o => o.intensity)).sum

/-- Consumable.total_danger_score from src/mysymptoms.py: the truthiness
branch divides only when the total is nonzero, then rounds. -/
def total_danger_score (c : Consumable) : ℚ :=
  let total := sumIntensity c
  round2 (if total ≠ 0 then (total : ℚ) / (c.times_consumed : ℚ) else 0)

def symptomScoreSum (c : Consumable) (s : String) : Int :=
  ((c.symptom_occurrences.filter (fun o => decide (o.symptom = s))).map
    (fun o => o.intensity)).sum

/-- The per-symptom average computed in the loop body of
Consumable.average_symptom_intensities. -/
def avgOf (c : Consumable) (s : String) : ℚ :=
  let score := symptomScoreSum c s
  if score ≠ 0 then round2 ((score : ℚ) / (c.times_consumed : ℚ)) else 0

/-- Consumable.average_symptom_intensities from src/mysymptoms.py: one
dict entry per associated symptom, and a printed warning for those whose
average strictly exceeds the threshold.  The loop appending to the dict
and emitting warnings is rendered as a map and a filtered map over the
associated-symptom set. -/
def average_symptom_intensities (c : Consumable) (thr : Int) :
    List (String × ℚ) × List (String × String × ℚ) :=
  (c.associated_symptoms.map (fun s => (s, avgOf c s)),
   (c.associated_symptoms.filter (fun s => decide ((thr : ℚ) < avgOf c s))).map
     (fun s => (c.name, s, avgOf c s)))

/-! ## Ranker: calculate_safest_consumables -/

structure ReportEntry where
  item : String
  danger_score : ℚ
  symptoms : List (String × ℚ)
deriving DecidableEq, Repr

def reportEntry (c : Consumable) (thr : Int) : ReportEntry :=
  ⟨c.name, total_danger_score c, (average_symptom_intensities c thr).1⟩

/-- Python sorted() is a stable ascending sort; rendered as stable
insertion sort (an element is placed before the first strictly greater
key, after equal ones coming earlier in the input). -/
def insertEntry (x : ReportEntry) : List ReportEntry → List ReportEntry
  | [] => [x]
  | y :: ys =>
    if x.danger_score ≤ y.danger_score then x :: y :: ys
    else y :: insertEntry x ys

def sortByDanger (l : List ReportEntry) : List ReportEntry :=
  l.foldr insertEntry []

/-- calculate_safest_consumables from src/mysymptoms.py: skip the
consumables below the minimum count, build a report entry for each
survivor in encounter order, sort ascending by danger score. -/
def calculate_safest_consumables (consumables : List Consumable)
    (min_times : Nat) (thr : Int) : List ReportEntry :=
  sortByDanger
    ((consumables.filter (fun c => !decide (c.times_consumed < min_times))).map
      (fun c => reportEntry c thr))

/-! ## Counting helpers for the tracker invariant -/

/-- The number of non-ignored item fields of one consumption row whose
cleaned form is the given name (the code increments once per such
field). -/
def itemCountRow (fields : List String) (n : String) : Nat :=
  (fields.filter (fun raw =>
    !(ignore_item (clean_data raw)) && decide (clean_data raw = n))).length

/-- Total over a row sequence of per-row item occurrences of a name. -/
def itemOccurrenceCount (rows : List Row) (n : String) : Nat :=
  (rows.map (fun r =>
    match r with
    | .consumption rest _ => itemCountRow rest n
    | .symptomRow _ _ => 0)).sum

/-- Spec-reading definition, for comparison with the code: the count of
Consumption events (rows) in which the name appears as a non-ignored
item, each event counted once even if the name occurs several times
among that row's item fields. -/
def eventAppearanceCount (rows : List Row) (n : String) : Nat :=
  (rows.filter (fun r =>
    match r with
    | .consumption rest _ =>
      decide (n ∈ (rest.map clean_data).filter (fun i => !(ignore_item i)))
    | .symptomRow _ _ => false)).length

/-- Whether a surviving pair of the symptom row fields fails to parse
(the error condition of the pair loop, independent of which consumable
is being processed). -/
def scanFieldsError (inc : List String) : List String → Bool
  | [] => false
  | [x] => !(skipName inc (clean_data x))
  | x :: y :: rest =>
    if skipName inc (clean_data x) then scanFieldsError inc rest
    else if (parsePyInt (removeAll " Intensity: " y)).isNone then true
    else scanFieldsError inc rest

def isOkE {α : Type} : Except String α → Bool
  | .ok _ => true
  | .error _ => false

/-- The times_consumed recorded for a name, zero when untracked. -/
def timesOf (m : List (String × Consumable)) (n : String) : Nat :=
  match lookupA m n with
  | some c => c.times_consumed
  | none => 0

/-! # Theorems -/

/-! ## Association list lemmas -/

theorem lookupA_updateA_ne (m : List (String × Consumable)) (k : String)
    (v : Consumable) (n : String) (h : k ≠ n) :
    lookupA (updateA m k v) n = lookupA m n := by
  induction m with
  | nil => rfl
  | cons p m ih =>
    obtain ⟨pk, pv⟩ := p
    by_cases hk : pk = k
    · subst hk
      simp only [updateA, if_pos rfl, lookupA, if_neg h]
    · simp only [updateA, if_neg hk, lookupA]
      by_cases hn : pk = n
      · simp [hn]
      · simp [hn, ih]

theorem lookupA_updateA_eq (m : List (String × Consumable)) (k : String)
    (v c : Consumable) (h : lookupA m k = some c) :
    lookupA (updateA m k v) k = some v := by
  induction m with
  | nil => simp [lookupA] at h
  | cons p m ih =>
    obtain ⟨pk, pv⟩ := p
    by_cases hk : pk = k
    · subst hk
      simp [updateA, lookupA]
    · simp only [lookupA, if_neg hk] at h
      simp only [updateA, if_neg hk, lookupA, if_neg hk]
      exact ih h

theorem lookupA_append_single (m : List (String × Consumable)) (k : String)
    (v : Consumable) (n : String) :
    lookupA (m ++ [(k, v)]) n =
      match lookupA m n with
      | some c => some c
      | none => if k = n then some v else none := by
  induction m with
  | nil => simp [lookupA]
  | cons p m ih =>
    obtain ⟨pk, pv⟩ := p
    by_cases hn : pk = n
    · simp [lookupA, hn]
    · simp only [List.cons_append, lookupA, if_neg hn]
      exact ih

theorem lookupA_mem (m : List (String × Consumable)) (n : String) (c : Consumable)
    (h : lookupA m n = some c) : (n, c) ∈ m := by
  induction m with
  | nil => simp [lookupA] at h
  | cons p m ih =>
    obtain ⟨pk, pv⟩ := p
    by_cases hn : pk = n
    · subst hn
      simp only [lookupA] at h
      simp at h
      subst h
      exact List.mem_cons_self _ _
    · simp only [lookupA, if_neg hn] at h
      exact List.mem_cons_of_mem _ (ih h)

/-! ## Stable insertion sort lemmas -/

theorem insertEntry_perm (x : ReportEntry) (l : List ReportEntry) :
    (insertEntry x l).Perm (x :: l) := by
  induction l with
  | nil => exact List.Perm.refl _
  | cons y ys ih =>
    by_cases hxy : x.danger_score ≤ y.danger_score
    · simp only [insertEntry, if_pos hxy]
      exact List.Perm.refl _
    · simp only [insertEntry, if_neg hxy]
      exact (ih.cons y).trans (List.Perm.swap x y ys)

theorem mem_insertEntry (z x : ReportEntry) (l : List ReportEntry) :
    z ∈ insertEntry x l ↔ z = x ∨ z ∈ l := by
  rw [(insertEntry_perm x l).mem_iff]
  simp

theorem insertEntry_pairwise (x : ReportEntry) (l : List ReportEntry)
    (h : l.Pairwise (fun a b => a.danger_score ≤ b.danger_score)) :
    (insertEntry x l).Pairwise (fun a b => a.danger_score ≤ b.danger_score) := by
  induction l with
  | nil => simp [insertEntry]
  | cons y ys ih =>
    rcases List.pairwise_cons.mp h with ⟨hy, hys⟩
    by_cases hxy : x.danger_score ≤ y.danger_score
    · simp only [insertEntry, if_pos hxy]
      refine List.pairwise_cons.mpr ⟨?_, h⟩
      intro z hz
      rcases List.mem_cons.mp hz with hz | hz
      · subst hz; exact hxy
      · exact le_trans hxy (hy z hz)
    · simp only [insertEntry, if_neg hxy]
      refine List.pairwise_cons.mpr ⟨?_, ih hys⟩
      intro z hz
      rcases (mem_insertEntry z x ys).mp hz with hz | hz
      · subst hz; exact le_of_not_le hxy
      · exact hy z hz

theorem sortByDanger_perm (l : List ReportEntry) : (sortByDanger l).Perm l := by
  induction l with
  | nil => exact List.Perm.refl _
  | cons x xs ih =>
    have : sortByDanger (x :: xs) = insertEntry x (sortByDanger xs) := rfl
    rw [this]
    exact (insertEntry_perm x (sortByDanger xs)).trans (ih.cons x)

theorem sortByDanger_sorted (l : List ReportEntry) :
    (sortByDanger l).Pairwise (fun a b => a.danger_score ≤ b.danger_score) := by
  induction l with
  | nil => simp [sortByDanger]
  | cons x xs ih => exact insertEntry_pairwise x (sortByDanger xs) ih

theorem filter_insertEntry (v : ℚ) (x : ReportEntry) (l : List ReportEntry) :
    (insertEntry x l).filter (fun e => decide (e.danger_score = v)) =
      if x.danger_score = v then
        x :: l.filter (fun e => decide (e.danger_score = v))
      else l.filter (fun e => decide (e.danger_score = v)) := by
  induction l with
  | nil =>
    by_cases hxv : x.danger_score = v <;> simp [insertEntry, hxv]
  | cons y ys ih =>
    by_cases hxy : x.danger_score ≤ y.danger_score
    · simp only [insertEntry, if_pos hxy]
      by_cases hxv : x.danger_score = v <;> simp [List.filter_cons, hxv]
    · simp only [insertEntry, if_neg hxy]
      by_cases hxv : x.danger_score = v
      · have hyv : y.danger_score ≠ v := by
          intro hy
          exact hxy (le_of_eq (hxv.trans hy.symm))
        simp [List.filter_cons, hyv, ih, hxv]
      · simp [List.filter_cons, ih, hxv]

theorem filter_sortByDanger (v : ℚ) (l : List ReportEntry) :
    (sortByDanger l).filter (fun e => decide (e.danger_score = v)) =
      l.filter (fun e => decide (e.danger_score = v)) := by
  induction l with
  | nil => rfl
  | cons x xs ih =>
    have hs : sortByDanger (x :: xs) = insertEntry x (sortByDanger xs) := rfl
    rw [hs, filter_insertEntry]
    by_cases hxv : x.danger_score = v
    · simp [List.filter_cons, hxv, ih]
    · simp [List.filter_cons, hxv, ih]

/-! ## Claim theorems: scoring and ranking -/

/-- C2: for every Consumable, whatever its occurrence list (intensities
unbounded, possibly zero or negative), total_danger_score returns
exactly round2 of the intensity sum divided by times_consumed: the
truthiness branch returning 0 when the sum is 0 agrees with the general
formula. -/
theorem C2_total_danger_score_eq (c : Consumable) :
    total_danger_score c = round2 ((sumIntensity c : ℚ) / (c.times_consumed : ℚ)) := by
  unfold total_danger_score
  by_cases h : sumIntensity c = 0
  · simp [h]
  · simp [h]

/-- C3: the ranker output is a permutation of the report entries of
exactly the consumables meeting the minimum count (in particular one
entry per survivor and none for the rest), it is sorted ascending by
danger score, and ties keep encounter order (the filtered value lists
at each score agree with the unsorted encounter-ordered entries). -/
theorem C3_ranker (consumables : List Consumable) (min_times : Nat) (thr : Int) :
    (calculate_safest_consumables consumables min_times thr).Perm
      ((consumables.filter (fun c => !decide (c.times_consumed < min_times))).map
        (fun c => reportEntry c thr)) ∧
    (∀ e, e ∈ calculate_safest_consumables consumables min_times thr ↔
      ∃ c ∈ consumables, min_times ≤ c.times_consumed ∧ e = reportEntry c thr) ∧
    (calculate_safest_consumables consumables min_times thr).Pairwise
      (fun a b => a.danger_score ≤ b.danger_score) ∧
    (∀ v : ℚ,
      (calculate_safest_consumables consumables min_times thr).filter
          (fun e => decide (e.danger_score = v)) =
        ((consumables.filter (fun c => !decide (c.times_consumed < min_times))).map
          (fun c => reportEntry c thr)).filter
          (fun e => decide (e.danger_score = v))) := by
  refine ⟨sortByDanger_perm _, ?_, sortByDanger_sorted _, fun v => filter_sortByDanger v _⟩
  intro e
  unfold calculate_safest_consumables
  rw [(sortByDanger_perm _).mem_iff]
  simp only [List.mem_map, List.mem_filter, Bool.not_eq_true', decide_eq_false_iff_not,
    Nat.not_lt]
  constructor
  · rintro ⟨c, ⟨hc, hmin⟩, he⟩
    exact ⟨c, hc, hmin, he.symm⟩
  · rintro ⟨c, hc, hmin, he⟩
    exact ⟨c, ⟨hc, hmin⟩, he.symm⟩

/-! ## Claim theorems: timestamp normalizer -/

/-- C6 counterexample: the fixed strptime format contains a space
between the year and the hour, but concatenating the cleaned date
"03/30/2022" directly with the cleaned time "18:57" yields
"03/30/202218:57", which has no whitespace there, so parsing fails
instead of returning the instant the claim promises. -/
theorem C6_counterexample :
    convert_to_date_time "03/30/2022" "18:57" = none := by
  rfl

/-- C6 amended: the raw date and time fields are concatenated before
cleaning and matched against month/day/4-digit-year, whitespace,
24-hour:minute; the whitespace separator must come from the raw time
field (CSV time fields carry a leading space), so date "03/30/2022"
with raw time " 18:57" parses to 2022-03-30 18:57, while the cleaned
forms "03/30/2022" and "18:57" concatenated without a separator are a
parse error. -/
theorem C6_amended :
    convert_to_date_time "03/30/2022" " 18:57" =
      some ⟨2022, 3, 30, 18, 57⟩ ∧
    convert_to_date_time "03/30/2022" "18:57" = none := by
  exact ⟨rfl, rfl⟩

/-! ## Claim theorems: consumable identity (clean_data) -/

/-- C7 counterexample: clean_data neither lowercases nor strips tabs or
newlines (it strips only space characters and deletes double quotes),
so the item fields "Tea" and "tea", differing only in letter case,
create two distinct tracked consumables instead of updating one, and a
tab-prefixed field cleans to a different key than its trimmed form. -/
theorem C7_counterexample :
    (updateConsumablesRow [] ["Tea", "tea"] 0).length = 2 ∧
    (lookupA (updateConsumablesRow [] ["Tea", "tea"] 0) "Tea").isSome = true ∧
    (lookupA (updateConsumablesRow [] ["Tea", "tea"] 0) "tea").isSome = true ∧
    clean_data "\ttea" ≠ clean_data "tea" := by
  refine ⟨by decide, by decide, by decide, by decide⟩

/-- C7 amended: consumable identity is by cleaned name — surrounding
space characters stripped and double-quote characters deleted, with
letter case significant and tabs or newlines not stripped: any two raw
item fields with the same cleaned form update the same Consumable. -/
theorem C7_amended (m : List (String × Consumable)) (x y : String) (t : Int)
    (h : clean_data x = clean_data y) :
    updateConsumableItem m x t = updateConsumableItem m y t := by
  simp only [updateConsumableItem, h]

/-- Witness for C7 amended: a quoted, space-padded field and its bare
form clean to the same name and act identically on the tracker. -/
theorem C7_amended_witness :
    updateConsumableItem [] " \"tea\" " 0 = updateConsumableItem [] "tea" 0 := by
  exact C7_amended [] " \"tea\" " "tea" 0 (by decide)

/-! ## Claim theorems: tracker frame effect -/

/-- C9: processing one non-ignored Consumption item touches only the
Consumable keyed by the item's cleaned name — updating its
last_consumed and incrementing times_consumed when present (its
occurrence list untouched, since update_last_consumed changes no other
field), or creating it with times_consumed 1 — while every other
consumable's lookup and the whole symptom registry are unchanged. -/
theorem C9_frame (inc : List String) (w : Int) (st : CSVState) (raw : String) (t : Int)
    (hig : ignore_item (clean_data raw) = false) :
    stepRow inc w st (Row.consumption [raw] t) =
      .ok ⟨updateConsumableItem st.consumables raw t, st.symptoms⟩ ∧
    (∀ k, k ≠ clean_data raw →
      lookupA (updateConsumableItem st.consumables raw t) k = lookupA st.consumables k) ∧
    (∀ c, lookupA st.consumables (clean_data raw) = some c →
      lookupA (updateConsumableItem st.consumables raw t) (clean_data raw) =
        some (update_last_consumed c t)) ∧
    (lookupA st.consumables (clean_data raw) = none →
      lookupA (updateConsumableItem st.consumables raw t) (clean_data raw) =
        some ⟨clean_data raw, t, 1, [], []⟩) := by
  refine ⟨rfl, ?_, ?_, ?_⟩
  · intro k hk
    simp only [updateConsumableItem, hig, Bool.false_eq_true, if_false]
    cases hl : lookupA st.consumables (clean_data raw) with
    | some c =>
      simp only [hl]
      exact lookupA_updateA_ne _ _ _ _ (fun he => hk he.symm)
    | none =>
      simp only [hl, lookupA_append_single]
      cases hlk : lookupA st.consumables k with
      | some c => rfl
      | none => simp [Ne.symm hk]
  · intro c hl
    simp only [updateConsumableItem, hig, Bool.false_eq_true, if_false, hl]
    exact lookupA_updateA_eq _ _ _ _ hl
  · intro hl
    simp [updateConsumableItem, hig, hl, lookupA_append_single]

/-- Witness for C9: adding a first "Tea" item leaves an existing
"Coffee" entry untouched and creates "Tea" with times_consumed 1. -/
theorem C9_frame_witness :
    lookupA (updateConsumableItem [("Coffee", ⟨"Coffee", 5, 1, [], []⟩)] "Tea" 0) "Coffee" =
      lookupA [("Coffee", ⟨"Coffee", 5, 1, [], []⟩)] "Coffee" ∧
    lookupA (updateConsumableItem [("Coffee", ⟨"Coffee", 5, 1, [], []⟩)] "Tea" 0) "Tea" =
      some ⟨"Tea", 0, 1, [], []⟩ := by
  have h := C9_frame [] 240 ⟨[("Coffee", ⟨"Coffee", 5, 1, [], []⟩)], []⟩ "Tea" 0 (by decide)
  exact ⟨h.2.1 "Coffee" (by decide), h.2.2.2 (by decide)⟩

/-! ## Claim theorems: per-symptom report mapping and warnings -/

/-- C10: under the representation invariant maintained by
add_symptom_occurence (the associated-symptom set is exactly the set of
symptoms of the recorded occurrences), the per-symptom mapping's keys
are exactly the names of symptoms with at least one occurrence attached
to the consumable, and a warning is emitted for a (consumable, symptom)
pair exactly when that symptom's average strictly exceeds the warning
threshold. -/
theorem C10_keys_and_warnings (c : Consumable) (thr : Int)
    (h : ∀ s, s ∈ c.associated_symptoms ↔ ∃ o ∈ c.symptom_occurrences, o.symptom = s) :
    (∀ s, s ∈ (average_symptom_intensities c thr).1.map Prod.fst ↔
      ∃ o ∈ c.symptom_occurrences, o.symptom = s) ∧
    (∀ s v, (c.name, s, v) ∈ (average_symptom_intensities c thr).2 ↔
      (∃ o ∈ c.symptom_occurrences, o.symptom = s) ∧ v = avgOf c s ∧ (thr : ℚ) < v) := by
  constructor
  · intro s
    rw [← h s]
    simp [average_symptom_intensities]
  · intro s v
    rw [← h s]
    simp only [average_symptom_intensities, List.mem_map, List.mem_filter,
      decide_eq_true_eq]
    constructor
    · rintro ⟨s1, ⟨hs1, hlt⟩, heq⟩
      rw [Prod.mk.injEq, Prod.mk.injEq] at heq
      obtain ⟨-, hss, hvv⟩ := heq
      subst hss
      subst hvv
      exact ⟨hs1, rfl, hlt⟩
    · rintro ⟨hs, hv, hlt⟩
      refine ⟨s, ⟨hs, ?_⟩, ?_⟩
      · rw [← hv]
        exact hlt
      · rw [← hv]

/-- Witness for C10: one recorded Headache occurrence of intensity 7
against threshold 5 puts Headache in the mapping and emits the
warning triple. -/
theorem C10_keys_and_warnings_witness :
    (("Tea", "Headache", (7 : ℚ)) ∈
      (average_symptom_intensities ⟨"Tea", 480, 1, [⟨"Headache", 570, 7⟩], ["Headache"]⟩ 5).2 ↔
      (∃ o ∈ ([⟨"Headache", 570, 7⟩] : List SymptomOccurence), o.symptom = "Headache") ∧
        (7 : ℚ) = avgOf ⟨"Tea", 480, 1, [⟨"Headache", 570, 7⟩], ["Headache"]⟩ "Headache" ∧
        ((5 : Int) : ℚ) < 7) := by
  exact (C10_keys_and_warnings ⟨"Tea", 480, 1, [⟨"Headache", 570, 7⟩], ["Headache"]⟩ 5
    (by intro s; simp [eq_comm])).2 "Headache" 7

/-! ## Correlation engine lemmas -/

theorem processPairs_preserves (inc : List String) (T : Int) :
    (fields : List String) → ∀ reg c reg1 c1,
      processPairs inc T reg c fields = .ok (reg1, c1) →
      c1.name = c.name ∧ c1.last_consumed = c.last_consumed ∧
        c1.times_consumed = c.times_consumed
  | [] => by
    intro reg c reg1 c1 hok
    simp only [processPairs, Except.ok.injEq, Prod.mk.injEq] at hok
    obtain ⟨-, h2⟩ := hok
    subst h2
    exact ⟨rfl, rfl, rfl⟩
  | [x] => by
    intro reg c reg1 c1 hok
    simp only [processPairs] at hok
    by_cases hs : skipName inc (clean_data x) = true
    · rw [if_pos hs] at hok
      simp only [Except.ok.injEq, Prod.mk.injEq] at hok
      obtain ⟨-, h2⟩ := hok
      subst h2
      exact ⟨rfl, rfl, rfl⟩
    · rw [if_neg hs] at hok
      cases hok
  | x :: y :: rest => by
    intro reg c reg1 c1 hok
    simp only [processPairs] at hok
    by_cases hs : skipName inc (clean_data x) = true
    · rw [if_pos hs] at hok
      exact processPairs_preserves inc T rest reg c reg1 c1 hok
    · rw [if_neg hs] at hok
      cases hp : parsePyInt (removeAll " Intensity: " y) with
      | none => rw [hp] at hok; cases hok
      | some k =>
        rw [hp] at hok
        have h := processPairs_preserves inc T rest _ _ _ _ hok
        simpa [add_symptom_occurence] using h

theorem processPairs_ok_of_scan_false (inc : List String) (T : Int) :
    (fields : List String) → scanFieldsError inc fields = false →
      ∀ reg c, ∃ reg1 c1, processPairs inc T reg c fields = .ok (reg1, c1)
  | [] => by
    intro _ reg c
    exact ⟨reg, c, rfl⟩
  | [x] => by
    intro hscan reg c
    simp only [scanFieldsError, Bool.not_eq_false'] at hscan
    refine ⟨reg, c, ?_⟩
    simp only [processPairs, hscan, if_true]
  | x :: y :: rest => by
    intro hscan reg c
    simp only [scanFieldsError] at hscan
    by_cases hs : skipName inc (clean_data x) = true
    · rw [if_pos hs] at hscan
      obtain ⟨reg1, c1, h⟩ := processPairs_ok_of_scan_false inc T rest hscan reg c
      refine ⟨reg1, c1, ?_⟩
      simp only [processPairs]
      rw [if_pos hs]
      exact h
    · rw [if_neg hs] at hscan
      cases hp : parsePyInt (removeAll " Intensity: " y) with
      | none => rw [hp] at hscan; simp at hscan
      | some k =>
        rw [hp] at hscan
        simp only [Option.isNone_some, Bool.false_eq_true, if_false] at hscan
        obtain ⟨reg1, c1, h⟩ := processPairs_ok_of_scan_false inc T rest hscan
          (if clean_data x ∈ reg then reg else reg ++ [clean_data x])
          (add_symptom_occurence c ⟨clean_data x, T, k⟩)
        refine ⟨reg1, c1, ?_⟩
        simp only [processPairs]
        rw [if_neg hs, hp]
        exact h

theorem processPairs_error_of_scan_true (inc : List String) (T : Int) :
    (fields : List String) → scanFieldsError inc fields = true →
      ∀ reg c, ∃ e, processPairs inc T reg c fields = .error e
  | [] => by
    intro hscan
    simp [scanFieldsError] at hscan
  | [x] => by
    intro hscan reg c
    simp only [scanFieldsError, Bool.not_eq_true'] at hscan
    refine ⟨"IndexError", ?_⟩
    simp only [processPairs, hscan, Bool.false_eq_true, if_false]
  | x :: y :: rest => by
    intro hscan reg c
    simp only [scanFieldsError] at hscan
    by_cases hs : skipName inc (clean_data x) = true
    · rw [if_pos hs] at hscan
      obtain ⟨e, h⟩ := processPairs_error_of_scan_true inc T rest hscan reg c
      refine ⟨e, ?_⟩
      simp only [processPairs]
      rw [if_pos hs]
      exact h
    · rw [if_neg hs] at hscan
      cases hp : parsePyInt (removeAll " Intensity: " y) with
      | none =>
        refine ⟨"ValueError", ?_⟩
        simp only [processPairs]
        rw [if_neg hs, hp]
      | some k =>
        rw [hp] at hscan
        simp only [Option.isNone_some, Bool.false_eq_true, if_false] at hscan
        obtain ⟨e, h⟩ := processPairs_error_of_scan_true inc T rest hscan
          (if clean_data x ∈ reg then reg else reg ++ [clean_data x])
          (add_symptom_occurence c ⟨clean_data x, T, k⟩)
        refine ⟨e, ?_⟩
        simp only [processPairs]
        rw [if_neg hs, hp]
        exact h

theorem updSymCons_lookup (inc : List String) (w T : Int) (fields : List String) :
    ∀ cs reg reg2 cs2, updSymCons inc w T fields reg cs = .ok (reg2, cs2) →
      ∀ n,
        (lookupA cs n = none → lookupA cs2 n = none) ∧
        (∀ c, lookupA cs n = some c → ∃ c2, lookupA cs2 n = some c2 ∧
          c2.name = c.name ∧ c2.last_consumed = c.last_consumed ∧
          c2.times_consumed = c.times_consumed ∧
          (¬ (T - c.last_consumed < w) → c2 = c)) := by
  intro cs
  induction cs with
  | nil =>
    intro reg reg2 cs2 hok n
    simp only [updSymCons, Except.ok.injEq, Prod.mk.injEq] at hok
    obtain ⟨-, h2⟩ := hok
    subst h2
    exact ⟨fun h => h, fun c hc => by simp [lookupA] at hc⟩
  | cons p cs ih =>
    obtain ⟨k, c0⟩ := p
    intro reg reg2 cs2 hok n
    simp only [updSymCons] at hok
    by_cases hq : T - c0.last_consumed < w
    · rw [if_pos hq] at hok
      cases hpp : processPairs inc T reg c0 fields with
      | error e => simp only [hpp] at hok; cases hok
      | ok pr =>
        obtain ⟨reg1, c1⟩ := pr
        simp only [hpp] at hok
        cases hrec : updSymCons inc w T fields reg1 cs with
        | error e => simp only [hrec] at hok; cases hok
        | ok pr2 =>
          obtain ⟨regr, csr⟩ := pr2
          simp only [hrec] at hok
          simp only [Except.ok.injEq, Prod.mk.injEq] at hok
          obtain ⟨-, h2⟩ := hok
          subst h2
          by_cases hn : k = n
          · subst hn
            constructor
            · intro hnone
              simp [lookupA] at hnone
            · intro c hc
              simp only [lookupA] at hc
              simp at hc
              subst hc
              obtain ⟨hname, hlast, htimes⟩ :=
                processPairs_preserves inc T fields reg c0 reg1 c1 hpp
              refine ⟨c1, ?_, hname, hlast, htimes, fun hnq => absurd hq hnq⟩
              simp [lookupA]
          · constructor
            · intro hnone
              simp only [lookupA, if_neg hn] at hnone ⊢
              exact ((ih reg1 regr csr hrec n).1) hnone
            · intro c hc
              simp only [lookupA, if_neg hn] at hc ⊢
              exact ((ih reg1 regr csr hrec n).2) c hc
    · rw [if_neg hq] at hok
      cases hrec : updSymCons inc w T fields reg cs with
      | error e => simp only [hrec] at hok; cases hok
      | ok pr2 =>
        obtain ⟨regr, csr⟩ := pr2
        simp only [hrec] at hok
        simp only [Except.ok.injEq, Prod.mk.injEq] at hok
        obtain ⟨-, h2⟩ := hok
        subst h2
        by_cases hn : k = n
        · subst hn
          constructor
          · intro hnone
            simp [lookupA] at hnone
          · intro c hc
            simp only [lookupA] at hc
            simp at hc
            subst hc
            refine ⟨c0, ?_, rfl, rfl, rfl, fun _ => rfl⟩
            simp [lookupA]
        · constructor
          · intro hnone
            simp only [lookupA, if_neg hn] at hnone ⊢
            exact ((ih reg regr csr hrec n).1) hnone
          · intro c hc
            simp only [lookupA, if_neg hn] at hc ⊢
            exact ((ih reg regr csr hrec n).2) c hc

theorem updSymCons_error_iff (inc : List String) (w T : Int) (fields : List String) :
    ∀ cs reg, (∃ e, updSymCons inc w T fields reg cs = .error e) ↔
      ((∃ p ∈ cs, T - p.2.last_consumed < w) ∧ scanFieldsError inc fields = true) := by
  intro cs
  induction cs with
  | nil =>
    intro reg
    constructor
    · rintro ⟨e, he⟩
      simp [updSymCons] at he
    · rintro ⟨⟨p, hp, -⟩, -⟩
      simp at hp
  | cons p cs ih =>
    obtain ⟨k, c0⟩ := p
    intro reg
    simp only [updSymCons]
    by_cases hq : T - c0.last_consumed < w
    · rw [if_pos hq]
      cases hscan : scanFieldsError inc fields with
      | true =>
        obtain ⟨e, he⟩ := processPairs_error_of_scan_true inc T fields hscan reg c0
        simp only [he]
        constructor
        · intro
          exact ⟨⟨(k, c0), List.mem_cons_self _ _, hq⟩, trivial⟩
        · intro
          exact ⟨e, rfl⟩
      | false =>
        obtain ⟨reg1, c1, hpp⟩ := processPairs_ok_of_scan_false inc T fields hscan reg c0
        simp only [hpp]
        constructor
        · rintro ⟨e, he⟩
          cases hrec : updSymCons inc w T fields reg1 cs with
          | error e2 =>
            have := (ih reg1).mp ⟨e2, hrec⟩
            exact absurd this.2 (by simp [hscan])
          | ok pr2 =>
            obtain ⟨regr, csr⟩ := pr2
            simp only [hrec] at he
            cases he
        · rintro ⟨-, hcontra⟩
          exact absurd hcontra (by simp [hscan])
    · rw [if_neg hq]
      constructor
      · rintro ⟨e, he⟩
        cases hrec : updSymCons inc w T fields reg cs with
        | error e2 =>
          obtain ⟨⟨p2, hp2, hq2⟩, hscan⟩ := (ih reg).mp ⟨e2, hrec⟩
          exact ⟨⟨p2, List.mem_cons_of_mem _ hp2, hq2⟩, hscan⟩
        | ok pr2 =>
          obtain ⟨regr, csr⟩ := pr2
          simp only [hrec] at he
          cases he
      · rintro ⟨⟨p2, hp2, hq2⟩, hscan⟩
        rcases List.mem_cons.mp hp2 with hp2 | hp2
        · subst hp2
          exact absurd hq2 hq
        · obtain ⟨e, he⟩ := (ih reg).mpr ⟨⟨p2, hp2, hq2⟩, hscan⟩
          simp only [he]
          exact ⟨e, rfl⟩

theorem timesOf_updSymCons (inc : List String) (w T : Int) (fields : List String)
    (reg : List String) (cs : List (String × Consumable)) (reg2 : List String)
    (cs2 : List (String × Consumable))
    (hok : updSymCons inc w T fields reg cs = .ok (reg2, cs2)) (n : String) :
    timesOf cs2 n = timesOf cs n := by
  have h := updSymCons_lookup inc w T fields cs reg reg2 cs2 hok n
  cases hl : lookupA cs n with
  | none => simp [timesOf, hl, h.1 hl]
  | some c =>
    obtain ⟨c2, hc2, -, -, ht, -⟩ := h.2 c hl
    simp [timesOf, hl, hc2, ht]

theorem inv_updSymCons (inc : List String) (w T : Int) (fields : List String)
    (reg : List String) (cs : List (String × Consumable)) (reg2 : List String)
    (cs2 : List (String × Consumable))
    (hok : updSymCons inc w T fields reg cs = .ok (reg2, cs2))
    (hInv : ∀ n c, lookupA cs n = some c → 1 ≤ c.times_consumed) :
    ∀ n c2, lookupA cs2 n = some c2 → 1 ≤ c2.times_consumed := by
  intro n c2 hc2
  have h := updSymCons_lookup inc w T fields cs reg reg2 cs2 hok n
  cases hl : lookupA cs n with
  | none => rw [h.1 hl] at hc2; cases hc2
  | some c =>
    obtain ⟨c2x, hc2x, -, -, ht, -⟩ := h.2 c hl
    rw [hc2x] at hc2
    cases hc2
    rw [ht]
    exact hInv n c hl

/-! ## Tracker counting lemmas -/

theorem timesOf_updateConsumableItem (m : List (String × Consumable)) (raw : String)
    (t : Int) (n : String) :
    timesOf (updateConsumableItem m raw t) n =
      timesOf m n +
        (if (!(ignore_item (clean_data raw)) && decide (clean_data raw = n)) = true
         then 1 else 0) := by
  by_cases hig : ignore_item (clean_data raw) = true
  · simp [updateConsumableItem, hig]
  · have hig2 : ignore_item (clean_data raw) = false := by
      simpa using hig
    simp only [updateConsumableItem, hig2, Bool.false_eq_true, if_false, Bool.not_false,
      Bool.true_and]
    by_cases hn : clean_data raw = n
    · subst hn
      cases hl : lookupA m (clean_data raw) with
      | some c =>
        simp only [timesOf, lookupA_updateA_eq m (clean_data raw) _ c hl, hl,
          update_last_consumed]
        simp
      | none =>
        simp only [timesOf, lookupA_append_single, hl]
        simp
    · have hd : decide (clean_data raw = n) = false := by simp [hn]
      cases hl : lookupA m (clean_data raw) with
      | some c =>
        simp only [hl, timesOf, lookupA_updateA_ne m (clean_data raw) _ n hn, hd]
        simp
      | none =>
        simp only [hl, timesOf, lookupA_append_single, hd]
        cases hlk : lookupA m n with
        | some c => simp [hlk]
        | none => simp [hlk, hn]

theorem timesOf_updateConsumablesRow (fields : List String)
    (m : List (String × Consumable)) (t : Int) (n : String) :
    timesOf (updateConsumablesRow m fields t) n = timesOf m n + itemCountRow fields n := by
  induction fields generalizing m with
  | nil => simp [updateConsumablesRow, itemCountRow]
  | cons raw fields ih =>
    have hrow : updateConsumablesRow m (raw :: fields) t =
        updateConsumablesRow (updateConsumableItem m raw t) fields t := rfl
    rw [hrow, ih, timesOf_updateConsumableItem]
    have hcount : itemCountRow (raw :: fields) n =
        (if (!(ignore_item (clean_data raw)) && decide (clean_data raw = n)) = true
         then 1 else 0) + itemCountRow fields n := by
      simp only [itemCountRow, List.filter_cons]
      cases hc : (!(ignore_item (clean_data raw)) && decide (clean_data raw = n)) with
      | true => simp only [if_true, List.length_cons]; omega
      | false => simp
    rw [hcount]
    omega

theorem inv_updateConsumableItem (m : List (String × Consumable)) (raw : String) (t : Int)
    (hInv : ∀ n c, lookupA m n = some c → 1 ≤ c.times_consumed) :
    ∀ n c, lookupA (updateConsumableItem m raw t) n = some c → 1 ≤ c.times_consumed := by
  intro n c h
  by_cases hig : ignore_item (clean_data raw) = true
  · rw [updateConsumableItem] at h
    simp only [hig, if_true] at h
    exact hInv n c h
  · have hig2 : ignore_item (clean_data raw) = false := by simpa using hig
    rw [updateConsumableItem] at h
    simp only [hig2, Bool.false_eq_true, if_false] at h
    cases hl : lookupA m (clean_data raw) with
    | some c0 =>
      rw [hl] at h
      by_cases hn : clean_data raw = n
      · subst hn
        rw [lookupA_updateA_eq m _ _ c0 hl] at h
        cases h
        simp [update_last_consumed]
      · rw [lookupA_updateA_ne m _ _ n hn] at h
        exact hInv n c h
    | none =>
      rw [hl] at h
      rw [lookupA_append_single] at h
      cases hlk : lookupA m n with
      | some c1 =>
        rw [hlk] at h
        cases h
        exact hInv n c hlk
      | none =>
        rw [hlk] at h
        by_cases hn : clean_data raw = n
        · simp only [hn, if_true, Option.some.injEq] at h
          subst h
          exact Nat.le_refl 1
        · simp [hn] at h

theorem timesOf_ingest (inc : List String) (w : Int) (n : String) :
    ∀ (rows : List Row) (st st2 : CSVState), ingest inc w st rows = .ok st2 →
      timesOf st2.consumables n = timesOf st.consumables n + itemOccurrenceCount rows n := by
  intro rows
  induction rows with
  | nil =>
    intro st st2 hok
    simp only [ingest, Except.ok.injEq] at hok
    subst hok
    simp [itemOccurrenceCount]
  | cons r rs ih =>
    intro st st2 hok
    simp only [ingest] at hok
    cases hstep : stepRow inc w st r with
    | error e => simp only [hstep] at hok; cases hok
    | ok st1 =>
      simp only [hstep] at hok
      have hrs := ih st1 st2 hok
      cases r with
      | consumption rest t =>
        simp only [stepRow, Except.ok.injEq] at hstep
        have hone : timesOf st1.consumables n =
            timesOf st.consumables n + itemCountRow rest n := by
          rw [← hstep]
          exact timesOf_updateConsumablesRow rest st.consumables t n
        rw [hrs, hone]
        simp only [itemOccurrenceCount, List.map_cons, List.sum_cons]
        omega
      | symptomRow rest t =>
        simp only [stepRow, updateSymptoms] at hstep
        cases hu : updSymCons inc w t rest st.symptoms st.consumables with
        | error e => simp only [hu] at hstep; cases hstep
        | ok pr =>
          obtain ⟨reg2, cs2⟩ := pr
          simp only [hu, Except.ok.injEq] at hstep
          have hone : timesOf st1.consumables n = timesOf st.consumables n := by
            rw [← hstep]
            exact timesOf_updSymCons inc w t rest st.symptoms st.consumables reg2 cs2 hu n
          rw [hrs, hone]
          simp only [itemOccurrenceCount, List.map_cons, List.sum_cons]
          omega

theorem inv_ingest (inc : List String) (w : Int) :
    ∀ (rows : List Row) (st st2 : CSVState), ingest inc w st rows = .ok st2 →
      (∀ n c, lookupA st.consumables n = some c → 1 ≤ c.times_consumed) →
      ∀ n c, lookupA st2.consumables n = some c → 1 ≤ c.times_consumed := by
  intro rows
  induction rows with
  | nil =>
    intro st st2 hok hInv
    simp only [ingest, Except.ok.injEq] at hok
    subst hok
    exact hInv
  | cons r rs ih =>
    intro st st2 hok hInv
    simp only [ingest] at hok
    cases hstep : stepRow inc w st r with
    | error e => simp only [hstep] at hok; cases hok
    | ok st1 =>
      simp only [hstep] at hok
      refine ih st1 st2 hok ?_
      cases r with
      | consumption rest t =>
        simp only [stepRow, Except.ok.injEq] at hstep
        subst hstep
        have hfold : ∀ (fields : List String) (m : List (String × Consumable)),
            (∀ n c, lookupA m n = some c → 1 ≤ c.times_consumed) →
            ∀ n c, lookupA (updateConsumablesRow m fields t) n = some c →
              1 ≤ c.times_consumed := by
          intro fields
          induction fields with
          | nil => intro m hm; exact hm
          | cons raw fields ihF =>
            intro m hm
            exact ihF (updateConsumableItem m raw t) (inv_updateConsumableItem m raw t hm)
        exact hfold rest st.consumables hInv
      | symptomRow rest t =>
        simp only [stepRow, updateSymptoms] at hstep
        cases hu : updSymCons inc w t rest st.symptoms st.consumables with
        | error e => simp only [hu] at hstep; cases hstep
        | ok pr =>
          obtain ⟨reg2, cs2⟩ := pr
          simp only [hu, Except.ok.injEq] at hstep
          subst hstep
          exact inv_updSymCons inc w t rest st.symptoms st.consumables reg2 cs2 hu hInv

/-! ## Claim theorems: correlation window -/

/-- C1: under the chronological-order precondition (every tracked
consumable was last consumed no later than the symptom instant T), a
symptom row changes a tracked Consumable only if its elapsed time
T - last_consumed lies in the half-open onset window, and a Consumable
with T - last_consumed at or beyond the window is left exactly as it
was — no occurrence is ever attached to it. -/
theorem C1_onset_window (inc : List String) (w T : Int) (st : CSVState)
    (fields : List String) (st2 : CSVState)
    (hok : updateSymptoms inc w st fields T = .ok st2)
    (hchrono : ∀ p ∈ st.consumables, p.2.last_consumed ≤ T) :
    ∀ n c c2, lookupA st.consumables n = some c →
      lookupA st2.consumables n = some c2 →
      (c2 ≠ c → 0 ≤ T - c.last_consumed ∧ T - c.last_consumed < w) ∧
      (w ≤ T - c.last_consumed → c2 = c) := by
  intro n c c2 hc hc2
  unfold updateSymptoms at hok
  cases hu : updSymCons inc w T fields st.symptoms st.consumables with
  | error e => simp only [hu] at hok; cases hok
  | ok pr =>
    obtain ⟨reg2, cs2⟩ := pr
    simp only [hu, Except.ok.injEq] at hok
    subst hok
    simp only at hc2
    obtain ⟨c2x, hc2x, -, -, -, hunch⟩ :=
      (updSymCons_lookup inc w T fields st.consumables st.symptoms reg2 cs2 hu n).2 c hc
    rw [hc2x] at hc2
    cases hc2
    have hle : c.last_consumed ≤ T := hchrono (n, c) (lookupA_mem _ _ _ hc)
    constructor
    · intro hne
      by_cases hqq : T - c.last_consumed < w
      · exact ⟨by omega, hqq⟩
      · exact absurd (hunch hqq) hne
    · intro hge
      exact hunch (by omega)

/-- Witness for C1: Tea consumed at 480, Headache at 570 with a
4-hour (240-minute) window: the occurrence is attached and the window
bounds hold. -/
theorem C1_onset_window_witness :
    (((⟨"Tea", 480, 1, [⟨"Headache", 570, 6⟩], ["Headache"]⟩ : Consumable) ≠
        ⟨"Tea", 480, 1, [], []⟩ →
      0 ≤ (570 : Int) - (⟨"Tea", 480, 1, [], []⟩ : Consumable).last_consumed ∧
        (570 : Int) - (⟨"Tea", 480, 1, [], []⟩ : Consumable).last_consumed < 240) ∧
    ((240 : Int) ≤ (570 : Int) - (⟨"Tea", 480, 1, [], []⟩ : Consumable).last_consumed →
      (⟨"Tea", 480, 1, [⟨"Headache", 570, 6⟩], ["Headache"]⟩ : Consumable) =
        ⟨"Tea", 480, 1, [], []⟩)) := by
  exact C1_onset_window [] 240 570 ⟨[("Tea", ⟨"Tea", 480, 1, [], []⟩)], []⟩
    ["Headache", " Intensity: 6"]
    ⟨[("Tea", ⟨"Tea", 480, 1, [⟨"Headache", 570, 6⟩], ["Headache"]⟩)], ["Headache"]⟩
    rfl
    (by intro p hp; rw [List.mem_singleton] at hp; subst hp; decide)
    "Tea" ⟨"Tea", 480, 1, [], []⟩ ⟨"Tea", 480, 1, [⟨"Headache", 570, 6⟩], ["Headache"]⟩
    rfl rfl

/-! ## Claim theorems: intensity parse errors -/

/-- C5 counterexample: a Symptom row whose surviving pair has the
unparseable intensity text "garbage" is processed without any error
when the only tracked consumable lies outside the onset window (elapsed
100 at window 60), because the intensity parse happens inside the
per-qualifying-consumable loop; the claim demands a fatal parse error
regardless of the window. -/
theorem C5_counterexample :
    parsePyInt (removeAll " Intensity: " "garbage") = none ∧
    updateSymptoms [] 60 ⟨[("Tea", ⟨"Tea", 0, 1, [], []⟩)], []⟩ ["Nausea", "garbage"] 100 =
      .ok ⟨[("Tea", ⟨"Tea", 0, 1, [], []⟩)], []⟩ := by
  exact ⟨rfl, rfl⟩

/-- C5 amended: processing a Symptom row fails (with an intensity
ValueError or a lone-field IndexError) exactly when at least one
tracked consumable lies within the onset window at that instant and
the row's pair scan is faulty; with no qualifying consumable the pair
loop body never runs and a malformed row is processed without error. -/
theorem C5_amended (inc : List String) (w : Int) (st : CSVState)
    (fields : List String) (T : Int) :
    (∃ e, updateSymptoms inc w st fields T = .error e) ↔
      ((∃ p ∈ st.consumables, T - p.2.last_consumed < w) ∧
        scanFieldsError inc fields = true) := by
  constructor
  · rintro ⟨e, he⟩
    unfold updateSymptoms at he
    cases hu : updSymCons inc w T fields st.symptoms st.consumables with
    | error e2 =>
      exact (updSymCons_error_iff inc w T fields st.consumables st.symptoms).mp ⟨e2, hu⟩
    | ok pr =>
      obtain ⟨reg2, cs2⟩ := pr
      simp only [hu] at he
      cases he
  · intro hrhs
    obtain ⟨e, hu⟩ :=
      (updSymCons_error_iff inc w T fields st.consumables st.symptoms).mpr hrhs
    refine ⟨e, ?_⟩
    unfold updateSymptoms
    simp only [hu]

/-! ## Claim theorems: times_consumed counting -/

/-- C4 counterexample: one Consumption row listing the item "Tea" twice
leaves times_consumed at 2, while the count of Consumption events in
which the name appears (each event counted once, as the claim states)
is 1 — the code counts item occurrences, not events. -/
theorem C4_counterexample :
    (ingest [] 240 ⟨[], []⟩ [Row.consumption ["Tea", "Tea"] 0]).toOption.bind
      (fun st => (lookupA st.consumables "Tea").map (fun c => c.times_consumed)) =
      some 2 ∧
    eventAppearanceCount [Row.consumption ["Tea", "Tea"] 0] "Tea" = 1 := by
  exact ⟨rfl, rfl⟩

/-- C4 amended: after ingesting any row sequence from an empty state,
every tracked Consumable has times_consumed ≥ 1 and equal to the total
number of non-ignored item-field occurrences of its name across
Consumption rows — each occurrence counted, so a name listed twice in
one row counts twice. -/
theorem C4_amended (inc : List String) (w : Int) (rows : List Row) (st2 : CSVState)
    (hok : ingest inc w ⟨[], []⟩ rows = .ok st2) :
    ∀ n c, lookupA st2.consumables n = some c →
      c.times_consumed = itemOccurrenceCount rows n ∧ 1 ≤ c.times_consumed := by
  intro n c hc
  have ht := timesOf_ingest inc w n rows ⟨[], []⟩ st2 hok
  have h0 : timesOf (⟨[], []⟩ : CSVState).consumables n = 0 := rfl
  rw [h0] at ht
  have hcnt : c.times_consumed = itemOccurrenceCount rows n := by
    have : timesOf st2.consumables n = c.times_consumed := by
      simp [timesOf, hc]
    omega
  refine ⟨hcnt, ?_⟩
  exact inv_ingest inc w rows ⟨[], []⟩ st2 hok (fun n c h => by cases h) n c hc

/-- Witness for C4 amended: a single Tea consumption gives
times_consumed 1, equal to the occurrence count. -/
theorem C4_amended_witness :
    (⟨"Tea", 0, 1, [], []⟩ : Consumable).times_consumed =
      itemOccurrenceCount [Row.consumption ["Tea"] 0] "Tea" ∧
    1 ≤ (⟨"Tea", 0, 1, [], []⟩ : Consumable).times_consumed := by
  exact C4_amended [] 240 [Row.consumption ["Tea"] 0]
    ⟨[("Tea", ⟨"Tea", 0, 1, [], []⟩)], []⟩ rfl "Tea" ⟨"Tea", 0, 1, [], []⟩ rfl

end MySymptoms
